import Mathlib

/-!
Verification of `nanoparticle_analyzer.py`: a shallow embedding of the
script's data model and processing stages (text sanitizer, bibliography
key generator, combination detector, aggregator/sorter, formatter),
together with theorems settling the specification claims.
-/

set_option maxHeartbeats 1000000
set_option maxRecDepth 4000

namespace NP

/-- Cell value taken from the loaded table.  `none` models Python `None`
(what `row.get` yields for an absent column label), `nan` models a missing
value (`NaN`), `str` and `int` model string and integer cells. -/
inductive PyVal where
  | none : PyVal
  | nan  : PyVal
  | str  : String → PyVal
  | int  : Int → PyVal
deriving DecidableEq

/-- Python `str(v)` on a cell value. -/
def pyStr : PyVal → String
  | PyVal.none  => "None"
  | PyVal.nan   => "nan"
  | PyVal.str s => s
  | PyVal.int n => toString n

/-- Model of `pd.notna(v)`: false exactly on `None` and `NaN`. -/
def pyNotna : PyVal → Bool
  | PyVal.none => false
  | PyVal.nan  => false
  | _          => true

/-- Python `str.split(sep)` on a character list: split at every separator,
keeping empty pieces (the result is never the empty list). -/
def splitPred (p : Char → Bool) : List Char → List (List Char)
  | [] => [[]]
  | c :: cs =>
      let r := splitPred p cs
      if p c then [] :: r
      else (c :: r.headD []) :: r.tail

/-- Python `str.strip()`: drop whitespace from both ends. -/
def pyTrim (l : List Char) : List Char :=
  ((l.dropWhile Char.isWhitespace).reverse.dropWhile Char.isWhitespace).reverse

/-- Value of a non-empty all-digit character list. -/
def parseDigits? (l : List Char) : Option Nat :=
  if l ≠ [] ∧ l.all Char.isDigit then
    some (l.foldl (fun a c => a * 10 + (c.toNat - 48)) 0)
  else Option.none

/-- Python `int(s)` on a string: optional surrounding whitespace, an
optional sign, then decimal digits; `Option.none` models `ValueError`. -/
def pyParseInt? (s : String) : Option Int :=
  match pyTrim s.data with
  | '-' :: ds => (parseDigits? ds).map (fun n => -(n : Int))
  | '+' :: ds => (parseDigits? ds).map (fun n => (n : Int))
  | ds => (parseDigits? ds).map (fun n => (n : Int))

/-- Python `int(v)` on a cell: succeeds on integer cells and on parseable
strings, raises (`Option.none`) on `NaN` and `None`. -/
def pyIntCell? : PyVal → Option Int
  | PyVal.int n => some n
  | PyVal.str s => pyParseInt? s
  | _           => Option.none

/-- Characters surviving `.encode('ascii','ignore')`: code points below 128. -/
def asciiIgnore (s : String) : String :=
  String.mk (s.data.filter (fun c => c.toNat < 128))

/-- Python `str.replace(old, new)` for a single-character pattern `old`. -/
def replaceChar (old : Char) (new : String) (s : String) : String :=
  String.mk (s.data.foldr (fun c acc => if c = old then new.data ++ acc else c :: acc) [])

/-- Replacement table of `sanitize_text`, in the insertion order of the
Python dict: `& % $ # _ { }`. -/
def bibReplacements : List (Char × String) :=
  [('&', "\\&"), ('%', "\\%"), ('$', "\\$"), ('#', "\\#"), ('_', "\\_"),
   (Char.ofNat 123, "\\\x7b"), (Char.ofNat 125, "\\\x7d")]

/-- Embedding of `sanitize_text` (src lines 65-75).  Unicode NFKD
normalization is supplied as the parameter `nfkd`; whatever it produces,
every non-ASCII character is dropped right after by the ascii/ignore
encode.  Non-string input yields the empty string. -/
def sanitize_text (nfkd : String → String) : PyVal → String
  | PyVal.str s =>
      bibReplacements.foldl (fun acc p => replaceChar p.1 p.2 acc) (asciiIgnore (nfkd s))
  | _ => ""

/-- Python `str.lower` (all inputs here are ASCII after sanitation). -/
def pyLower (s : String) : String := String.mk (s.data.map Char.toLower)

/-- Keep alphanumeric characters only, as `''.join(c for c in s if c.isalnum())`. -/
def cleanAlnum (s : String) : String := String.mk (s.data.filter Char.isAlphanum)

/-- Python `str.split()` with no separator: split on whitespace runs and
drop empty pieces. -/
def pySplitWs (s : String) : List String :=
  ((splitPred Char.isWhitespace s.data).map String.mk).filter (fun t => !(t == ""))

/-- Surname component of the key: `s_authors.split(',')[0].split()[-1].lower()`
filtered to alphanumerics; `Option.none` models the `IndexError` raised when
the first comma-segment has no whitespace token. -/
def extractSurname? (sAuthors : String) : Option String :=
  (pySplitWs (String.mk ((splitPred (fun c => c = ',') sAuthors.data).headD []))).getLast?.map
    (fun t => cleanAlnum (pyLower t))

/-- Title component of the key: `s_title.split()[0].lower()` filtered to
alphanumerics; `Option.none` models the `IndexError` on a blank title. -/
def extractFirstWord? (sTitle : String) : Option String :=
  (pySplitWs sTitle).head?.map (fun t => cleanAlnum (pyLower t))

/-- Embedding of the year step `str(int(year)) if pd.notna(year) else "nd"`:
the value is `some` of the produced string, and `Option.none` models the
`ValueError` raised by `int` on a present but non-parseable year. -/
def yearStr? : PyVal → Option String
  | PyVal.nan   => some ("nd")
  | PyVal.none  => some ("nd")
  | PyVal.int n => some (toString n)
  | PyVal.str s => (pyParseInt? s).map toString

/-- Embedding of `generate_bib_key` (src lines 77-96).  The parameter `h`
models the Python builtin `hash`, whose value on strings is salted per
process; any failure of the author, year or title step lands in the
`ref_` fallback. -/
def generate_bib_key (nfkd : String → String) (h : PyVal → Int)
    (authors year title : PyVal) : String :=
  let sAuthors := sanitize_text nfkd (PyVal.str (pyStr authors))
  let sTitle := sanitize_text nfkd (PyVal.str (pyStr title))
  match extractSurname? sAuthors, yearStr? year, extractFirstWord? sTitle with
  | some a, some y, some t => a ++ y ++ t
  | _, _, _ => "ref_" ++ toString (Int.natAbs (h title))

/-- True when `generate_bib_key` takes the regular (non-fallback) branch. -/
def keyRegular (nfkd : String → String) (authors year title : PyVal) : Bool :=
  (extractSurname? (sanitize_text nfkd (PyVal.str (pyStr authors)))).isSome
  && (yearStr? year).isSome
  && (extractFirstWord? (sanitize_text nfkd (PyVal.str (pyStr title)))).isSome

/-- One pass of the uniqueness loop (src lines 113-121): `cnt` plays the
role of `seen_keys_count`; the first occurrence of a base key is kept
unmodified, the later ones get `count+1` appended. -/
def assignKeysAux (cnt : String → Nat) : List String → List String
  | [] => []
  | b :: bs =>
      let c := cnt b
      (if c = 0 then b else b ++ toString (c + 1))
        :: assignKeysAux (fun k => if k = b then c + 1 else cnt k) bs

/-- Unique keys produced from the base keys, in input order. -/
def assignKeys (bs : List String) : List String :=
  assignKeysAux (fun _ => 0) bs

/-- Regex word character over the ASCII range: alphanumeric or underscore. -/
def isWordChar (c : Char) : Bool := c.isAlphanum || c = '_'

/-- Lower-cased character list of a string; comparing lowered pattern and
text models `re.IGNORECASE`. -/
def lowData (s : String) : List Char := s.data.map Char.toLower

/-- Match of the escaped pattern `p` at position `i` of text `t` with `\b`
word boundaries on both sides (every variant starts and ends with a word
character, so `\b` demands a non-word neighbour or the text edge). -/
def wwMatchAt (p t : List Char) (i : Nat) : Bool :=
  ((t.drop i).take p.length == p)
  && (match i with
      | 0 => true
      | j + 1 => !(isWordChar (t.getD j (' '))))
  && (if i + p.length < t.length then !(isWordChar (t.getD (i + p.length) (' '))) else true)

/-- Embedding of `re.search(r'\b'+re.escape(v)+r'\b', text, re.IGNORECASE)`:
true when some position of the text matches. -/
def wholeWordSearch (v text : String) : Bool :=
  let p := lowData v
  let t := lowData text
  (List.range (t.length + 1)).any (fun i => wwMatchAt p t i)

/-- The `NANOPARTICLE_MAP` configuration (src lines 34-50). -/
def NANOPARTICLE_MAP : List (String × List String) :=
  [("Alumina", ["Al2O3", "aluminum oxide", "alumina"]),
   ("Titania", ["TiO2", "titanium dioxide", "titania"]),
   ("Silica", ["SiO2", "silicon dioxide", "silica"]),
   ("Copper Oxide", ["CuO", "cupric oxide", "copper oxide"]),
   ("Zinc Oxide", ["ZnO", "zinc oxide"]),
   ("Magnetite", ["Fe3O4", "magnetite", "iron oxide"]),
   ("Zirconia", ["ZrO2", "zirconium dioxide", "zirconia"]),
   ("Graphene", ["graphene", "graphene nanoplatelets", "GNP", "graphene oxide", "GO"]),
   ("Carbon Nanotube", ["carbon nanotube", "CNT", "SWCNT", "MWCNT"]),
   ("Diamond", ["diamond", "nano-diamond"]),
   ("Silver", ["silver", "Ag"]),
   ("Copper", ["copper", "Cu"]),
   ("Gold", ["gold", "Au"]),
   ("MXene", ["mxene", "ti3c2tx"]),
   ("Molybdenum Disulfide", ["MoS2", "molybdenum disulfide"])]

/-- Canonical names detected in a text (src lines 132-137).  The Python
accumulates a set while iterating the dict; since canonical names are
distinct, the set is realized as the sublist of names whose variant list
has a whole-word match, in map order. -/
def detectNames (text : String) : List String :=
  (NANOPARTICLE_MAP.filter (fun p => p.2.any (fun v => wholeWordSearch v text))).map
    (fun p => p.1)

example : detectNames ("Author of gold nanoparticles") = ["Gold"] := by decide
example : detectNames ("Authors") = [] := by decide
example : detectNames ("Au with Ag") = ["Silver", "Gold"] := by decide

/-- One input row, with every column of the CSV that the script touches. -/
structure Row where
  authors : PyVal
  year : PyVal
  title : PyVal
  abstract : PyVal
  keywords : PyVal
  indexKeywords : PyVal
  sourceTitle : PyVal
  volume : PyVal
  pageStart : PyVal
  pageEnd : PyVal
  publisher : PyVal
  doi : PyVal
deriving DecidableEq

/-- Cell of the row-level text join after `fillna('')`: a missing value
becomes the empty string.  The `Row` pipeline models the loaded table on
its intended domain — text cells that are strings or missing — where the
join is total; a non-string, non-missing text cell makes the real join
raise, which the DataFrame-level model captures (see `strCells?`). -/
def fillStr : PyVal → String
  | PyVal.str s => s
  | _ => ""

/-- Python `sep.join(l)`. -/
def joinSep (sep : String) : List String → String
  | [] => ""
  | [x] => x
  | x :: xs => x ++ sep ++ joinSep sep xs

/-- Combined searchable text (src line 126): the four text columns joined
with single spaces, missing values becoming empty strings. -/
def combinedText (r : Row) : String :=
  joinSep (" ")
    [fillStr r.title, fillStr r.abstract, fillStr r.keywords, fillStr r.indexKeywords]

/-- Lexicographic code-point comparison of character lists (Python `<`
on strings). -/
def charsLt : List Char → List Char → Bool
  | [], [] => false
  | [], _ :: _ => true
  | _ :: _, [] => false
  | a :: as, b :: bs => if a < b then true else if b < a then false else charsLt as bs

/-- Python `x <= y` on strings. -/
def strLe (x y : String) : Bool := !(charsLt y.data x.data)

/-- Stable ascending insertion of a string into a sorted list. -/
def insertStr (x : String) : List String → List String
  | [] => [x]
  | y :: ys => if strLe x y then x :: y :: ys else y :: insertStr x ys

/-- Model of Python `sorted` on strings (code-point lexicographic order). -/
def sortStrings : List String → List String
  | [] => []
  | x :: xs => insertStr x (sortStrings xs)

/-- Combination identity of a row: `tuple(sorted(list(found)))` (src 142). -/
def comboOf (r : Row) : List String := sortStrings (detectNames (combinedText r))

/-- A combination group: the sorted combination and the ordered list of
bibliography keys filed under it. -/
abbrev Group := List String × List String

/-- Model of `combination_keys[combo].append(key)` on an insertion-ordered
association list (Python dict semantics: append to the existing entry,
else add a new entry at the end). -/
def dictAppend (gs : List Group) (ck : List String) (v : String) : List Group :=
  if gs.any (fun p => p.1 == ck) then
    gs.map (fun p => if p.1 == ck then (p.1, p.2 ++ [v]) else p)
  else gs ++ [(ck, [v])]

/-- One iteration of the detection/grouping loop (src lines 132-149):
rows detecting no material contribute nothing. -/
def groupStep (gs : List Group) (rk : Row × String) : List Group :=
  let ck := comboOf rk.1
  if ck.isEmpty then gs else dictAppend gs ck rk.2

/-- Grouping pass over the rows paired with their bibliography keys. -/
def buildGroups (rks : List (Row × String)) : List Group :=
  rks.foldl groupStep []

/-- Value list stored under a combination key (empty when absent). -/
def lookupG (gs : List Group) (ck : List String) : List String :=
  ((gs.find? (fun p => p.1 == ck)).map (fun p => p.2)).getD []

/-- Sort key of a group: `(len(combo), freq)` as in src line 154. -/
def keyOf (g : Group) : Nat × Nat := (g.1.length, g.2.length)

/-- Strict lexicographic order on sort keys (Python tuple comparison). -/
def keyLt (a b : Nat × Nat) : Prop := a.1 < b.1 ∨ (a.1 = b.1 ∧ a.2 < b.2)

instance (a b : Nat × Nat) : Decidable (keyLt a b) := by
  unfold keyLt; infer_instance

/-- Stable descending insertion: the new group moves right only past
strictly greater keys, so groups with equal keys keep their
first-encountered order — `sorted(..., reverse=True)` is stable. -/
def insertDesc (x : Group) : List Group → List Group
  | [] => [x]
  | y :: ys => if keyLt (keyOf x) (keyOf y) then y :: insertDesc x ys else x :: y :: ys

/-- Model of the group ordering of src lines 152-156. -/
def sortGroups : List Group → List Group
  | [] => []
  | x :: xs => insertDesc x (sortGroups xs)

/-- The `LATEX_SYMBOL_MAP` configuration (src lines 53-59). -/
def LATEX_SYMBOL_MAP : List (String × String) :=
  [("Alumina", "\\ce\x7bAl2O3\x7d"), ("Titania", "\\ce\x7bTiO2\x7d"),
   ("Silica", "\\ce\x7bSiO2\x7d"), ("Copper Oxide", "\\ce\x7bCuO\x7d"),
   ("Zinc Oxide", "\\ce\x7bZnO\x7d"), ("Magnetite", "\\ce\x7bFe3O4\x7d"),
   ("Zirconia", "\\ce\x7bZrO2\x7d"), ("Graphene", "Graphene"),
   ("Carbon Nanotube", "CNT"), ("Diamond", "Diamond"),
   ("Silver", "\\ce\x7bAg\x7d"), ("Copper", "\\ce\x7bCu\x7d"),
   ("Gold", "\\ce\x7bAu\x7d"), ("MXene", "MXene"),
   ("Molybdenum Disulfide", "\\ce\x7bMoS2\x7d")]

/-- Display label of a combination: `LATEX_SYMBOL_MAP.get(name, name)`
for each name, joined with a fixed separator (src line 162). -/
def latexComboStr (combo : List String) : String :=
  joinSep (" + ")
    (combo.map (fun n =>
      ((LATEX_SYMBOL_MAP.find? (fun p => p.1 == n)).map (fun p => p.2)).getD n))

/-- One LaTeX table line (src line 164). -/
def tableRow (g : Group) : String :=
  "  " ++ latexComboStr g.1 ++ " & " ++ toString g.2.length ++ " & "
    ++ "\\cite\x7b" ++ String.intercalate (",") g.2 ++ "\x7d" ++ " \\\\ \\hline"

/-- Dict insertion walk: keep an element when it was not seen before. -/
def dedupGo (seen : List String) : List String → List String
  | [] => []
  | k :: ks => if seen.contains k then dedupGo seen ks else k :: dedupGo (k :: seen) ks

/-- Model of `list(dict.fromkeys(l))` (src line 167): keep the first
occurrence of each element, in order. -/
def pyDedup (l : List String) : List String := dedupGo [] l

/-- Index of the first occurrence of `a` (the length when `a` is absent). -/
def firstIdx (a : String) : List String → Nat
  | [] => 0
  | b :: l => if b = a then 0 else firstIdx a l + 1

/-- Embedding of one iteration of the BibTeX rendering loop
(src lines 172-189); `Option.none` models the caught exception, after
which the key is skipped with a warning. -/
def renderEntry? (nfkd : String → String) (r : Row) (key : String) : Option String := do
  let pages ←
    if pyNotna r.pageStart && pyNotna r.pageEnd then do
      let ps ← pyIntCell? r.pageStart
      let pe ← pyIntCell? r.pageEnd
      pure (toString ps ++ "--" ++ toString pe)
    else pure ("")
  let yr ← pyIntCell? r.year
  pure ("@article\x7b" ++ key ++ ",\n"
    ++ "  title=\x7b" ++ sanitize_text nfkd r.title ++ "\x7d,\n"
    ++ "  author=\x7b" ++ replaceChar ',' (" and") (sanitize_text nfkd r.authors) ++ "\x7d,\n"
    ++ "  journal=\x7b" ++ sanitize_text nfkd r.sourceTitle ++ "\x7d,\n"
    ++ "  volume=\x7b" ++ pyStr r.volume ++ "\x7d,\n"
    ++ "  pages=\x7b" ++ pages ++ "\x7d,\n"
    ++ "  year=\x7b" ++ toString yr ++ "\x7d,\n"
    ++ "  publisher=\x7b" ++ sanitize_text nfkd r.publisher ++ "\x7d,\n"
    ++ "  doi=\x7b" ++ pyStr r.doi ++ "\x7d\n"
    ++ "\x7d")

/-- The two output artifacts. -/
structure Output where
  table : String
  bib : String
deriving DecidableEq

/-- Keys listed by the table in final group order (src lines 160-165). -/
def allOrderedCiteKeys (td : List Group) : List String :=
  (td.map (fun g => g.2)).flatten

/-- The citation keys after the `dict.fromkeys` deduplication (src 167). -/
def uniqueOrderedKeys (td : List Group) : List String :=
  pyDedup (allOrderedCiteKeys td)

/-- Key-generation stage of the pipeline (src lines 113-122). -/
def pipelineKeys (nfkd : String → String) (h : PyVal → Int) (rows : List Row) :
    List String :=
  assignKeys (rows.map (fun r => generate_bib_key nfkd h r.authors r.year r.title))

/-- The whole pipeline over an in-memory table whose columns are all
present (src lines 112-196), from rows to the two output artifacts.
`key_to_article_map.loc[key]` is realized as the first row carrying the
key. -/
def pipeline (nfkd : String → String) (h : PyVal → Int) (rows : List Row) : Output :=
  let keys := pipelineKeys nfkd h rows
  let rks := rows.zip keys
  let td := sortGroups (buildGroups rks)
  let tableStr := joinSep ("\n") (td.map tableRow)
  let bibStr := joinSep ("\n\n")
    ((uniqueOrderedKeys td).filterMap
      (fun k => (rks.find? (fun p => p.2 == k)).bind (fun p => renderEntry? nfkd p.1 k)))
  { table := tableStr, bib := bibStr }

/-- Column-keyed model of the loaded DataFrame, for the claims about
absent columns. -/
abbrev DFrame := List (String × List PyVal)

/-- The cells of a named column, when present. -/
def getCol (df : DFrame) (name : String) : Option (List PyVal) :=
  (df.find? (fun p => p.1 == name)).map (fun p => p.2)

/-- The four columns joined into the searchable text (src line 125). -/
def textColumns : List String := ["Title", "Abstract", "Keywords", "Index Keywords"]

/-- Model of `row.get(name)` for row `i`: Python `None` when the column
is absent, the cell (possibly `NaN`) when present. -/
def rowGet (df : DFrame) (name : String) (i : Nat) : PyVal :=
  match getCol df name with
  | some col => col.getD i PyVal.nan
  | Option.none => PyVal.none

/-- Cell of column `c` at row `i` of a present column (NaN past the end). -/
def cellAt (df : DFrame) (c : String) (i : Nat) : PyVal :=
  ((getCol df c).getD []).getD i PyVal.nan

/-- Effect of `fillna('')` on one cell: missing values (`NaN`, `None`)
become the empty string, every other cell is left in place. -/
def fillNaCell : PyVal → PyVal
  | PyVal.nan => PyVal.str ("")
  | PyVal.none => PyVal.str ("")
  | v => v

/-- The string carried by a string cell; `Option.none` on anything else. -/
def asStr? : PyVal → Option String
  | PyVal.str s => some s
  | _ => Option.none

/-- True when the cell survives `fillna('')` followed by `' '.join`:
a string or a missing value; a numeric cell stays numeric after the
fillna and makes the join raise `TypeError`. -/
def textCellOk (v : PyVal) : Bool := (asStr? (fillNaCell v)).isSome

/-- The filled cells of one row as strings, or `Option.none` — the
`TypeError` raised by `' '.join` — when some filled cell is non-string. -/
def strCells? : List PyVal → Option (List String)
  | [] => some []
  | v :: vs =>
      match fillNaCell v with
      | PyVal.str s => (strCells? vs).map (fun r => s :: r)
      | _ => Option.none

/-- Combined text of row `i`: the four filled text cells joined with
single spaces, failing on a non-string filled cell. -/
def rowText? (df : DFrame) (i : Nat) : Option String :=
  (strCells? (textColumns.map (fun c => cellAt df c i))).map (fun l => joinSep (" ") l)

/-- Combined texts of the rows with the listed indices; the first failing
row aborts. -/
def allRowTexts? (df : DFrame) : List Nat → Option (List String)
  | [] => some []
  | i :: is =>
      match rowText? df i with
      | some t => (allRowTexts? df is).map (fun r => t :: r)
      | Option.none => Option.none

/-- Model of `df[text_columns].fillna('').agg(' '.join, axis=1)`
(src line 126): pandas raises an uncaught `KeyError` — `Option.none`
here — as soon as any listed column is absent from the frame, and the
row-wise `' '.join` raises an uncaught `TypeError` on any non-string,
non-missing cell of those columns. -/
def combinedTexts? (df : DFrame) (n : Nat) : Option (List String) :=
  if textColumns.all (fun c => (getCol df c).isSome) then
    allRowTexts? df (List.range n)
  else Option.none

/-- Key generation plus combined-text stage (src lines 112-126) at the
DataFrame level; `Option.none` is an uncaught exception aborting the run
before any output is produced. -/
def preprocess? (nfkd : String → String) (h : PyVal → Int) (df : DFrame) (n : Nat) :
    Option (List (String × String)) :=
  (combinedTexts? df n).map (fun texts =>
    (assignKeys ((List.range n).map (fun i =>
      generate_bib_key nfkd h (rowGet df ("Authors") i) (rowGet df ("Year") i)
        (rowGet df ("Title") i)))).zip texts)

/-- Row constructor for concrete test inputs: the remaining columns are
missing values. -/
def mkRow (authors year title : PyVal) : Row :=
  { authors := authors, year := year, title := title,
    abstract := PyVal.nan, keywords := PyVal.nan, indexKeywords := PyVal.nan,
    sourceTitle := PyVal.nan, volume := PyVal.nan, pageStart := PyVal.nan,
    pageEnd := PyVal.nan, publisher := PyVal.nan, doi := PyVal.nan }

example :
    generate_bib_key (fun s => s) (fun _ => 0)
      (PyVal.str ("John Smith")) (PyVal.int 2020) (PyVal.str ("graphene applications"))
    = "smith2020graphene" := by decide

example : assignKeys ["x", "x", "x"] = ["x", "x2", "x3"] := by decide

/-! ## Sanitizer: ASCII invariant (claim C10) -/

/-- Predicate: every character of the string is ASCII. -/
def allAscii (s : String) : Bool := s.data.all (fun c => c.toNat < 128)

theorem allAscii_mk_filter (l : List Char) :
    allAscii (String.mk (l.filter (fun c => c.toNat < 128))) = true := by
  simp only [allAscii, List.all_eq_true, decide_eq_true_eq]
  intro c hc
  simpa using (List.mem_filter.mp hc).2

theorem all_ascii_replace (old : Char) (nd : List Char) (l : List Char)
    (hn : nd.all (fun c => c.toNat < 128) = true)
    (hl : l.all (fun c => c.toNat < 128) = true) :
    (l.foldr (fun c acc => if c = old then nd ++ acc else c :: acc) []).all
      (fun c => c.toNat < 128) = true := by
  induction l with
  | nil => simp
  | cons c cs ih =>
      simp only [List.all_cons, Bool.and_eq_true] at hl
      simp only [List.foldr_cons]
      by_cases hc : c = old
      · simp only [if_pos hc, List.all_append]
        simp [hn, ih hl.2]
      · simp only [if_neg hc, List.all_cons]
        simp [hl.1, ih hl.2]

theorem allAscii_replaceChar (old : Char) (new s : String)
    (hn : allAscii new = true) (hs : allAscii s = true) :
    allAscii (replaceChar old new s) = true :=
  all_ascii_replace old new.data s.data hn hs

theorem allAscii_foldl_replace (ps : List (Char × String)) :
    ∀ (s : String), (∀ p ∈ ps, allAscii p.2 = true) → allAscii s = true →
    allAscii (ps.foldl (fun acc p => replaceChar p.1 p.2 acc) s) = true := by
  induction ps with
  | nil => intro s _ hs; simpa using hs
  | cons p ps ih =>
      intro s hp hs
      simp only [List.foldl_cons]
      exact ih _ (fun q hq => hp q (List.mem_cons_of_mem p hq))
        (allAscii_replaceChar p.1 p.2 s (hp p (List.mem_cons_self p ps)) hs)

/-- C10: `sanitize_text` returns a string of ASCII characters only, for
every input value and every normalization function, and maps every
non-string input to the empty string. -/
theorem sanitize_text_ascii :
    (∀ (nfkd : String → String) (t : PyVal), allAscii (sanitize_text nfkd t) = true)
    ∧ (∀ (nfkd : String → String),
        sanitize_text nfkd PyVal.nan = ""
        ∧ sanitize_text nfkd PyVal.none = ""
        ∧ ∀ (n : Int), sanitize_text nfkd (PyVal.int n) = "") := by
  constructor
  · intro nfkd t
    cases t with
    | str s =>
        refine allAscii_foldl_replace bibReplacements _ ?_ ?_
        · decide
        · exact allAscii_mk_filter ((nfkd s).data)
    | nan => rfl
    | none => rfl
    | int n => rfl
  · intro nfkd
    exact ⟨rfl, rfl, fun n => rfl⟩

/-! ## Uniqueness pass (claims C4, C3) -/

/-- Key received by the `n`-th appearance of base key `b` (from 1). -/
def suffixKey (b : String) (n : Nat) : String :=
  if n = 1 then b else b ++ toString n

theorem assignKeysAux_getD (bs : List String) :
    ∀ (cnt : String → Nat) (i : Nat), i < bs.length →
      (assignKeysAux cnt bs).getD i ("") =
        suffixKey (bs.getD i (""))
          (cnt (bs.getD i ("")) + (bs.take (i + 1)).count (bs.getD i (""))) := by
  induction bs with
  | nil => intro cnt i h; simp at h
  | cons b bs ih =>
      intro cnt i hi
      cases i with
      | zero =>
          show (if cnt b = 0 then b else b ++ toString (cnt b + 1))
            = suffixKey b (cnt b + ((b :: bs).take 1).count b)
          have hcount : ((b :: bs).take 1).count b = 1 := by simp
          rw [hcount]
          unfold suffixKey
          by_cases hc : cnt b = 0
          · simp [hc]
          · rw [if_neg hc, if_neg (by omega)]
      | succ j =>
          have hj : j < bs.length := by simpa using hi
          show (assignKeysAux (fun k => if k = b then cnt b + 1 else cnt k) bs).getD j ("")
            = suffixKey ((b :: bs).getD (j + 1) (""))
                (cnt ((b :: bs).getD (j + 1) ("")) + ((b :: bs).take (j + 2)).count ((b :: bs).getD (j + 1) ("")))
          rw [ih (fun k => if k = b then cnt b + 1 else cnt k) j hj]
          have hx : (b :: bs).getD (j + 1) ("") = bs.getD j ("") := rfl
          rw [hx]
          refine congrArg (suffixKey (bs.getD j (""))) ?_
          simp only [List.take_succ_cons, List.count_cons]
          by_cases hxb : bs.getD j ("") = b
          · simp only [hxb, if_pos rfl, beq_self_eq_true, if_pos]
            omega
          · simp only [List.getD_eq_getElem?_getD] at hxb
            simp [hxb, Ne.symm hxb]

/-- C4: in the single left-to-right uniqueness pass, the first article
producing a base key keeps it unmodified, and the Nth article (N ≥ 2)
producing the same base key gets that base key with the literal integer
N appended. -/
theorem assignKeys_nth_occurrence (bs : List String) (i : Nat) (hi : i < bs.length) :
    (assignKeys bs).getD i ("") =
      (if (bs.take (i + 1)).count (bs.getD i ("")) = 1
       then bs.getD i ("")
       else bs.getD i ("") ++ toString ((bs.take (i + 1)).count (bs.getD i ("")))) := by
  have H := assignKeysAux_getD bs (fun _ => 0) i hi
  simpa [suffixKey, assignKeys] using H

/-- Witness for C4: three equal base keys receive X, X2 and X3. -/
theorem assignKeys_nth_occurrence_witness :
    (assignKeys ["x", "x", "x"]).getD 0 ("") = "x"
    ∧ (assignKeys ["x", "x", "x"]).getD 1 ("") = "x2"
    ∧ (assignKeys ["x", "x", "x"]).getD 2 ("") = "x3" := by
  refine ⟨?_, ?_, ?_⟩
  · have H := assignKeys_nth_occurrence ["x", "x", "x"] 0 (by decide)
    revert H; decide
  · have H := assignKeys_nth_occurrence ["x", "x", "x"] 1 (by decide)
    revert H; decide
  · have H := assignKeys_nth_occurrence ["x", "x", "x"] 2 (by decide)
    revert H; decide

/-- Input rows whose base keys are smith2020graphene, smith2020graphene
and smith2020graphene2. -/
def collideRows : List Row :=
  [mkRow (PyVal.str ("John Smith")) (PyVal.int 2020) (PyVal.str ("graphene applications")),
   mkRow (PyVal.str ("John Smith")) (PyVal.int 2020) (PyVal.str ("graphene applications")),
   mkRow (PyVal.str ("John Smith")) (PyVal.int 2020) (PyVal.str ("graphene2 applications"))]

/-- C3 (code bug): the duplicate of the first two rows is renamed to
smith2020graphene2, which collides with the third row's untouched base
key — the final keys are not pairwise distinct. -/
theorem duplicate_final_keys_on_suffix_collision :
    pipelineKeys (fun s => s) (fun _ => 0) collideRows
      = ["smith2020graphene", "smith2020graphene2", "smith2020graphene2"]
    ∧ ¬ (pipelineKeys (fun s => s) (fun _ => 0) collideRows).Nodup := by
  constructor
  · decide
  · decide

/-! ## Key generator: year handling (claim C5) -/

/-- C5 (counterexample): a present but non-numeric year sends a record
with perfectly well-formed author and title to the hash fallback key,
not to the nd-keyed regular pattern. -/
theorem nonnumeric_year_hits_fallback :
    generate_bib_key (fun s => s) (fun _ => 0)
        (PyVal.str ("John Smith")) (PyVal.str ("n/a")) (PyVal.str ("graphene applications"))
      = "ref_0"
    ∧ ¬ (generate_bib_key (fun s => s) (fun _ => 0)
        (PyVal.str ("John Smith")) (PyVal.str ("n/a")) (PyVal.str ("graphene applications"))
      = "smithndgraphene") := by
  constructor <;> decide

/-- C5 (amended): with a well-formed author and title, a missing year
(`pd.notna` false) produces the regular key with the literal nd token in
the year position, while a present but non-parseable year raises inside
`int()` and lands in the hash fallback branch. -/
theorem year_nd_only_when_missing (nfkd : String → String) (h : PyVal → Int)
    (authors title : PyVal) (a t : String)
    (ha : extractSurname? (sanitize_text nfkd (PyVal.str (pyStr authors))) = some a)
    (ht : extractFirstWord? (sanitize_text nfkd (PyVal.str (pyStr title))) = some t) :
    (∀ year, pyNotna year = false →
        generate_bib_key nfkd h authors year title = a ++ "nd" ++ t)
    ∧ (∀ s, pyParseInt? s = Option.none →
        generate_bib_key nfkd h authors (PyVal.str s) title
          = "ref_" ++ toString (Int.natAbs (h title))) := by
  constructor
  · intro year hy
    cases year with
    | nan => simp [generate_bib_key, ha, ht, yearStr?]
    | none => simp [generate_bib_key, ha, ht, yearStr?]
    | str s => simp [pyNotna] at hy
    | int n => simp [pyNotna] at hy
  · intro s hs
    simp [generate_bib_key, ha, ht, yearStr?, hs]

/-- Witness for C5 (amended): John Smith, missing year, graphene title
gives smithndgraphene. -/
theorem year_nd_only_when_missing_witness :
    generate_bib_key (fun s => s) (fun _ => 0)
        (PyVal.str ("John Smith")) PyVal.nan (PyVal.str ("graphene applications"))
      = "smithndgraphene" := by
  have H := (year_nd_only_when_missing (fun s => s) (fun _ => 0)
      (PyVal.str ("John Smith")) (PyVal.str ("graphene applications"))
      ("smith") ("graphene") (by decide) (by decide)).1 PyVal.nan (by decide)
  exact H.trans (by decide)

/-! ## Combination detector (claim C2) -/

/-- C2: a canonical name is in the detected set exactly when one of its
variants has a case-insensitive whole-word match in the text; the word
gold inside "Author of gold nanoparticles" matches canonical Gold, while
"Authors" alone matches nothing — in particular not the variant Au. -/
theorem detect_whole_word_spec :
    (∀ (text name : String),
        name ∈ detectNames text
          ↔ ∃ vs, (name, vs) ∈ NANOPARTICLE_MAP
              ∧ ∃ v ∈ vs, wholeWordSearch v text = true)
    ∧ wholeWordSearch ("gold") ("Author of gold nanoparticles") = true
    ∧ ("Gold" ∈ detectNames ("Author of gold nanoparticles"))
    ∧ wholeWordSearch ("Au") ("Authors") = false
    ∧ detectNames ("Authors") = [] := by
  refine ⟨?_, by decide, by decide, by decide, by decide⟩
  intro text name
  constructor
  · intro hmem
    obtain ⟨p, hp, hpe⟩ := List.mem_map.mp hmem
    obtain ⟨hpm, hpf⟩ := List.mem_filter.mp hp
    refine ⟨p.2, ?_, ?_⟩
    · rw [← hpe]; exact hpm
    · obtain ⟨v, hv, hw⟩ := List.any_eq_true.mp hpf
      exact ⟨v, hv, hw⟩
  · rintro ⟨vs, hmem, v, hv, hw⟩
    refine List.mem_map.mpr ⟨(name, vs), ?_, rfl⟩
    refine List.mem_filter.mpr ⟨hmem, ?_⟩
    exact List.any_eq_true.mpr ⟨v, hv, hw⟩

/-! ## Aggregator/sorter ordering (claim C7) -/

theorem keyLt_asymm {a b : Nat × Nat} (h : keyLt a b) : ¬ keyLt b a := by
  unfold keyLt at *; omega

theorem keyLt_resolve {a b c : Nat × Nat} (hab : ¬ keyLt a b) (hbc : ¬ keyLt b c) :
    ¬ keyLt a c := by
  unfold keyLt at *; omega

theorem keyLt_irrefl (a : Nat × Nat) : ¬ keyLt a a := by
  unfold keyLt; omega

theorem insertDesc_perm (x : Group) (l : List Group) :
    List.Perm (insertDesc x l) (x :: l) := by
  induction l with
  | nil => exact List.Perm.refl _
  | cons y ys ih =>
      unfold insertDesc
      by_cases hxy : keyLt (keyOf x) (keyOf y)
      · rw [if_pos hxy]
        exact (List.Perm.cons y ih).trans (List.Perm.swap x y ys)
      · rw [if_neg hxy]

theorem pairwise_insertDesc (x : Group) (l : List Group)
    (hl : List.Pairwise (fun a b => ¬ keyLt (keyOf a) (keyOf b)) l) :
    List.Pairwise (fun a b => ¬ keyLt (keyOf a) (keyOf b)) (insertDesc x l) := by
  induction l with
  | nil => simp [insertDesc]
  | cons y ys ih =>
      rw [List.pairwise_cons] at hl
      unfold insertDesc
      by_cases hxy : keyLt (keyOf x) (keyOf y)
      · rw [if_pos hxy, List.pairwise_cons]
        constructor
        · intro z hz
          rcases List.mem_cons.mp ((insertDesc_perm x ys).mem_iff.mp hz) with rfl | hz
          · exact keyLt_asymm hxy
          · exact hl.1 z hz
        · exact ih hl.2
      · rw [if_neg hxy, List.pairwise_cons]
        constructor
        · intro z hz
          rcases List.mem_cons.mp hz with rfl | hz
          · exact hxy
          · exact keyLt_resolve hxy (hl.1 z hz)
        · exact List.Pairwise.cons hl.1 hl.2

theorem filter_insertDesc (x : Group) (l : List Group) (k : Nat × Nat) :
    (insertDesc x l).filter (fun g => keyOf g == k)
      = (x :: l).filter (fun g => keyOf g == k) := by
  induction l with
  | nil => rfl
  | cons y ys ih =>
      unfold insertDesc
      by_cases hxy : keyLt (keyOf x) (keyOf y)
      · rw [if_pos hxy]
        by_cases hy : (keyOf y == k) = true <;> by_cases hx : (keyOf x == k) = true
        · exfalso
          have e1 : keyOf y = k := by simpa using hy
          have e2 : keyOf x = k := by simpa using hx
          rw [e1, e2] at hxy
          exact keyLt_irrefl k hxy
        · simp [List.filter_cons, hy, hx, ih]
        · simp [List.filter_cons, hy, hx, ih]
        · simp [List.filter_cons, hy, hx, ih]
      · rw [if_neg hxy]

theorem sortGroups_perm (gs : List Group) : List.Perm (sortGroups gs) gs := by
  induction gs with
  | nil => exact List.Perm.refl _
  | cons x xs ih => exact (insertDesc_perm x (sortGroups xs)).trans (List.Perm.cons x ih)

theorem sortGroups_pairwise (gs : List Group) :
    List.Pairwise (fun a b => ¬ keyLt (keyOf a) (keyOf b)) (sortGroups gs) := by
  induction gs with
  | nil => simp [sortGroups]
  | cons x xs ih => exact pairwise_insertDesc x (sortGroups xs) ih

theorem sortGroups_filter (gs : List Group) (k : Nat × Nat) :
    (sortGroups gs).filter (fun g => keyOf g == k) = gs.filter (fun g => keyOf g == k) := by
  induction gs with
  | nil => rfl
  | cons x xs ih =>
      show (insertDesc x (sortGroups xs)).filter (fun g => keyOf g == k)
        = (x :: xs).filter (fun g => keyOf g == k)
      rw [filter_insertDesc]
      simp [List.filter_cons, ih]

/-- Binary combination group with frequency 10. -/
def binExample : Group :=
  (["Alumina", "Gold"], ["b1", "b2", "b3", "b4", "b5", "b6", "b7", "b8", "b9", "b10"])

/-- Ternary combination group with frequency 2. -/
def terExample : Group := (["Alumina", "Gold", "Silver"], ["t1", "t2"])

/-- C7: the output ordering of groups is descending by combination size,
then descending by frequency (no group's sort key is lexicographically
below a later one's), it permutes the built groups, and it is stable —
the groups carrying any fixed sort key keep their first-encountered
relative order; concretely, a ternary group of frequency 2 is placed
before a binary group of frequency 10. -/
theorem sortGroups_spec :
    (∀ gs : List Group,
        List.Pairwise (fun a b => ¬ keyLt (keyOf a) (keyOf b)) (sortGroups gs)
        ∧ List.Perm (sortGroups gs) gs
        ∧ ∀ k : Nat × Nat,
            (sortGroups gs).filter (fun g => keyOf g == k)
              = gs.filter (fun g => keyOf g == k))
    ∧ sortGroups [binExample, terExample] = [terExample, binExample] := by
  exact ⟨fun gs => ⟨sortGroups_pairwise gs, sortGroups_perm gs,
    fun k => sortGroups_filter gs k⟩, by decide⟩

/-! ## Formatter: bibliography key dedup and ordering (claim C8) -/

theorem mem_dedupGo (l : List String) :
    ∀ (seen : List String) (n : String),
      n ∈ dedupGo seen l ↔ n ∈ l ∧ ¬ n ∈ seen := by
  induction l with
  | nil => intro seen n; simp [dedupGo]
  | cons k ks ih =>
      intro seen n
      unfold dedupGo
      by_cases hk : seen.contains k = true
      · rw [if_pos hk, ih seen n]
        have hkseen : k ∈ seen := by simpa using hk
        constructor
        · rintro ⟨hn, hns⟩; exact ⟨List.mem_cons_of_mem k hn, hns⟩
        · rintro ⟨hn, hns⟩
          rcases List.mem_cons.mp hn with rfl | hn
          · exact absurd hkseen hns
          · exact ⟨hn, hns⟩
      · rw [if_neg hk]
        have hkseen : ¬ k ∈ seen := by simpa using hk
        constructor
        · intro hn
          rcases List.mem_cons.mp hn with rfl | hn
          · exact ⟨List.mem_cons_self n ks, hkseen⟩
          · obtain ⟨h1, h2⟩ := (ih (k :: seen) n).mp hn
            exact ⟨List.mem_cons_of_mem k h1,
              fun hmem => h2 (List.mem_cons_of_mem k hmem)⟩
        · rintro ⟨hn, hns⟩
          by_cases hnk : n = k
          · exact hnk ▸ List.mem_cons_self n (dedupGo (n :: seen) ks)
          · rcases List.mem_cons.mp hn with rfl | hn
            · exact absurd rfl hnk
            · refine List.mem_cons_of_mem k ((ih (k :: seen) n).mpr ⟨hn, ?_⟩)
              intro hmem
              rcases List.mem_cons.mp hmem with e | hmem
              · exact hnk e
              · exact hns hmem

theorem nodup_dedupGo (l : List String) :
    ∀ (seen : List String), (dedupGo seen l).Nodup := by
  induction l with
  | nil => intro seen; simp [dedupGo]
  | cons k ks ih =>
      intro seen
      unfold dedupGo
      by_cases hk : seen.contains k = true
      · rw [if_pos hk]; exact ih seen
      · rw [if_neg hk]
        refine List.nodup_cons.mpr ⟨?_, ih (k :: seen)⟩
        intro hmem
        exact ((mem_dedupGo ks (k :: seen) k).mp hmem).2 (List.mem_cons_self k seen)

theorem firstIdx_dedupGo (l : List String) :
    ∀ (seen : List String) (a b : String), a ≠ b → ¬ a ∈ seen → ¬ b ∈ seen →
      (firstIdx a (dedupGo seen l) < firstIdx b (dedupGo seen l)
        ↔ firstIdx a l < firstIdx b l) := by
  induction l with
  | nil => intro seen a b _ _ _; exact Iff.rfl
  | cons k ks ih =>
      intro seen a b hab ha hb
      unfold dedupGo
      by_cases hk : seen.contains k = true
      · rw [if_pos hk]
        have hkseen : k ∈ seen := by simpa using hk
        have hka : ¬ k = a := fun e => ha (e ▸ hkseen)
        have hkb : ¬ k = b := fun e => hb (e ▸ hkseen)
        rw [ih seen a b hab ha hb]
        simp [firstIdx, hka, hkb]
      · rw [if_neg hk]
        by_cases hka : k = a
        · subst hka
          have hkb : ¬ k = b := hab
          simp [firstIdx, hkb]
        · by_cases hkb : k = b
          · subst hkb
            simp [firstIdx, hka]
          · have ha2 : ¬ a ∈ k :: seen := by
              intro hmem
              rcases List.mem_cons.mp hmem with e | hmem
              · exact hka e.symm
              · exact ha hmem
            have hb2 : ¬ b ∈ k :: seen := by
              intro hmem
              rcases List.mem_cons.mp hmem with e | hmem
              · exact hkb e.symm
              · exact hb hmem
            simp only [firstIdx, if_neg hka, if_neg hkb]
            rw [Nat.add_lt_add_iff_right, Nat.add_lt_add_iff_right]
            exact ih (k :: seen) a b hab ha2 hb2

/-- C8 (amended): the bibliography loop runs over the table's citation
keys deduplicated to first occurrences — every key appearing in some
group appears exactly once in that list, even a key shared by several
groups, ordered by first appearance across the already-sorted groups —
and each listed key contributes at most one rendered entry (none when
its construction fails). -/
theorem bib_keys_dedup_first_order (td : List Group) :
    (∀ k, k ∈ uniqueOrderedKeys td ↔ k ∈ allOrderedCiteKeys td)
    ∧ (uniqueOrderedKeys td).Nodup
    ∧ (∀ a b, a ≠ b →
        (firstIdx a (uniqueOrderedKeys td) < firstIdx b (uniqueOrderedKeys td)
          ↔ firstIdx a (allOrderedCiteKeys td) < firstIdx b (allOrderedCiteKeys td))) := by
  refine ⟨?_, nodup_dedupGo (allOrderedCiteKeys td) [], ?_⟩
  · intro k
    rw [uniqueOrderedKeys, pyDedup, mem_dedupGo]
    simp
  · intro a b hab
    exact firstIdx_dedupGo (allOrderedCiteKeys td) [] a b hab (by simp) (by simp)

/-- Groups artificially sharing the key ka, for the C8 witness. -/
def dupGroups : List Group := [(["Gold"], ["ka", "kb"]), (["Silver"], ["ka", "kc"])]

/-- Witness for C8 (amended) at two groups that share a citation key. -/
theorem bib_keys_dedup_first_order_witness :
    (uniqueOrderedKeys dupGroups).Nodup
    ∧ (firstIdx ("ka") (uniqueOrderedKeys dupGroups)
          < firstIdx ("kc") (uniqueOrderedKeys dupGroups)
        ↔ firstIdx ("ka") (allOrderedCiteKeys dupGroups)
          < firstIdx ("kc") (allOrderedCiteKeys dupGroups)) :=
  ⟨(bib_keys_dedup_first_order dupGroups).2.1,
   (bib_keys_dedup_first_order dupGroups).2.2 ("ka") ("kc") (by decide)⟩

/-- Row that is grouped and cited but whose bibliography entry raises. -/
def nanYearRow : Row := mkRow (PyVal.str ("John Smith")) PyVal.nan (PyVal.str ("gold study"))

/-- C8 (counterexample): the key smithndgold appears in a group and is
cited by the table, yet the bibliography output contains no entry for
it — the missing year makes the entry construction raise and the key is
skipped. -/
theorem bib_entry_skipped_for_nan_year :
    (pipeline (fun s => s) (fun _ => 0) [nanYearRow]).table
      = "  \\ce\x7bAu\x7d & 1 & \\cite\x7bsmithndgold\x7d \\\\ \\hline"
    ∧ (pipeline (fun s => s) (fun _ => 0) [nanYearRow]).bib = "" := by
  constructor <;> decide

/-! ## Determinism across runs (claim C1) -/

/-- Row with an empty author field: its key comes from the hash fallback. -/
def fallbackRow : Row :=
  mkRow (PyVal.str ("")) PyVal.nan (PyVal.str ("gold nanoparticles"))

/-- C1 (counterexample): on a record with an empty author field the key
comes from the salted string hash, so two runs of the pipeline whose
process hash differs (modelled by the constant hashes 0 and 1) produce
different artifacts on byte-identical input. -/
theorem pipeline_hash_dependent :
    pipeline (fun s => s) (fun _ => 0) [fallbackRow]
      ≠ pipeline (fun s => s) (fun _ => 1) [fallbackRow] := by decide

theorem generate_bib_key_hash_free (nfkd : String → String) (h1 h2 : PyVal → Int)
    (a y t : PyVal) (hk : keyRegular nfkd a y t = true) :
    generate_bib_key nfkd h1 a y t = generate_bib_key nfkd h2 a y t := by
  unfold keyRegular at hk
  simp only [Bool.and_eq_true, Option.isSome_iff_exists] at hk
  obtain ⟨⟨⟨sa, hsa⟩, sy, hsy⟩, st, hst⟩ := hk
  unfold generate_bib_key
  dsimp only
  rw [hsa, hsy, hst]

/-- C1 (amended): when every record takes the regular key path the
pipeline output does not depend on the process hash at all; since the
pipeline is otherwise a pure function of its input, two such runs on
identical input produce byte-identical artifacts. -/
theorem pipeline_deterministic_without_fallback (nfkd : String → String)
    (h1 h2 : PyVal → Int) (rows : List Row)
    (hreg : ∀ r ∈ rows, keyRegular nfkd r.authors r.year r.title = true) :
    pipeline nfkd h1 rows = pipeline nfkd h2 rows := by
  have hkeys : pipelineKeys nfkd h1 rows = pipelineKeys nfkd h2 rows := by
    unfold pipelineKeys
    refine congrArg assignKeys ?_
    refine List.map_congr_left ?_
    intro r hr
    exact generate_bib_key_hash_free nfkd h1 h2 r.authors r.year r.title (hreg r hr)
  unfold pipeline
  rw [hkeys]

/-- Row with complete, well-formed fields. -/
def goodRow : Row :=
  { authors := PyVal.str ("John Smith"), year := PyVal.int 2020,
    title := PyVal.str ("gold research"), abstract := PyVal.str ("about Ag"),
    keywords := PyVal.str (""), indexKeywords := PyVal.str (""),
    sourceTitle := PyVal.str ("Journal of Things"), volume := PyVal.int 7,
    pageStart := PyVal.int 1, pageEnd := PyVal.int 9,
    publisher := PyVal.str ("Pub"), doi := PyVal.str ("10.1/x") }

/-- Witness for C1 (amended) on a fully well-formed record. -/
theorem pipeline_deterministic_without_fallback_witness :
    pipeline (fun s => s) (fun _ => 0) [goodRow]
      = pipeline (fun s => s) (fun _ => 1) [goodRow] :=
  pipeline_deterministic_without_fallback (fun s => s) (fun _ => 0) (fun _ => 1)
    [goodRow] (by decide)

/-! ## Absent input columns (claim C9) -/

/-- Frame with every column the pre-processing needs except Abstract. -/
def dfNoAbstract : DFrame :=
  [("Title", [PyVal.str ("gold study")]), ("Keywords", [PyVal.str ("")]),
   ("Index Keywords", [PyVal.str ("")]), ("Authors", [PyVal.str ("John Smith")]),
   ("Year", [PyVal.int 2020])]

/-- C9 (counterexample): with the optional Abstract column absent, the
combined-text selection raises an uncaught KeyError and the run aborts
instead of degrading to empty values. -/
theorem missing_abstract_column_aborts :
    preprocess? (fun s => s) (fun _ => 0) dfNoAbstract 1 = Option.none := by decide

/-- Frame whose Title column holds a number: the join raises TypeError
and the run aborts even though all four text columns are present. -/
def dfIntTitle : DFrame :=
  [("Title", [PyVal.int 7]), ("Abstract", [PyVal.str ("")]),
   ("Keywords", [PyVal.str ("")]), ("Index Keywords", [PyVal.str ("")]),
   ("Authors", [PyVal.str ("John Smith")]), ("Year", [PyVal.int 2020])]

example : preprocess? (fun s => s) (fun _ => 0) dfIntTitle 1 = Option.none := by decide

theorem strCells_isSome (vs : List PyVal)
    (h : ∀ v ∈ vs, textCellOk v = true) : (strCells? vs).isSome = true := by
  induction vs with
  | nil => rfl
  | cons v vs ih =>
      have hv := h v (List.mem_cons_self v vs)
      unfold textCellOk at hv
      show (match fillNaCell v with
            | PyVal.str s => (strCells? vs).map (fun r => s :: r)
            | _ => Option.none).isSome = true
      cases hfc : fillNaCell v with
      | str s =>
          have ht := ih (fun w hw => h w (List.mem_cons_of_mem v hw))
          show ((strCells? vs).map (fun r => s :: r)).isSome = true
          cases hs2 : strCells? vs with
          | none => rw [hs2] at ht; exact absurd ht (by simp)
          | some l => rfl
      | nan => rw [hfc] at hv; exact absurd hv (by simp [asStr?])
      | none => rw [hfc] at hv; exact absurd hv (by simp [asStr?])
      | int m => rw [hfc] at hv; exact absurd hv (by simp [asStr?])

theorem rowText_isSome (df : DFrame) (i : Nat)
    (h : ∀ c ∈ textColumns, textCellOk (cellAt df c i) = true) :
    (rowText? df i).isSome = true := by
  have hcells : ∀ v ∈ textColumns.map (fun c => cellAt df c i), textCellOk v = true := by
    intro v hv
    obtain ⟨c, hc, hce⟩ := List.mem_map.mp hv
    rw [← hce]
    exact h c hc
  have hs := strCells_isSome (textColumns.map (fun c => cellAt df c i)) hcells
  unfold rowText?
  cases hq : strCells? (textColumns.map (fun c => cellAt df c i)) with
  | none => rw [hq] at hs; exact absurd hs (by simp)
  | some l => rfl

theorem allRowTexts_isSome (df : DFrame) (is : List Nat)
    (h : ∀ i ∈ is, (rowText? df i).isSome = true) :
    (allRowTexts? df is).isSome = true := by
  induction is with
  | nil => rfl
  | cons i is ih =>
      have hi := h i (List.mem_cons_self i is)
      show (match rowText? df i with
            | some t => (allRowTexts? df is).map (fun r => t :: r)
            | Option.none => Option.none).isSome = true
      cases hr : rowText? df i with
      | none => rw [hr] at hi; exact absurd hi (by simp)
      | some t =>
          have ht := ih (fun j hj => h j (List.mem_cons_of_mem i hj))
          show ((allRowTexts? df is).map (fun r => t :: r)).isSome = true
          cases ha : allRowTexts? df is with
          | none => rw [ha] at ht; exact absurd ht (by simp)
          | some r => rfl

/-- C9 (amended): when the four text-search columns are present and their
cells are textual (strings or missing values), the pre-processing stage
succeeds no matter which other columns are absent: every field read
through `row.get` degrades to None and the key generator absorbs it.
An absent text column (KeyError) or a non-string, non-missing cell in a
text column (TypeError in the join) aborts the run instead. -/
theorem preprocess_ok_of_text_columns_present (nfkd : String → String) (h : PyVal → Int)
    (df : DFrame) (n : Nat)
    (hc : textColumns.all (fun c => (getCol df c).isSome) = true)
    (hcells : ∀ c ∈ textColumns, ∀ i ∈ List.range n, textCellOk (cellAt df c i) = true) :
    (preprocess? nfkd h df n).isSome = true := by
  unfold preprocess? combinedTexts?
  rw [if_pos hc]
  have hall : (allRowTexts? df (List.range n)).isSome = true := by
    refine allRowTexts_isSome df (List.range n) ?_
    intro i hi
    refine rowText_isSome df i ?_
    intro c hcm
    exact hcells c hcm i hi
  cases ha : allRowTexts? df (List.range n) with
  | none => rw [ha] at hall; exact absurd hall (by simp)
  | some ts => rfl

/-- Frame with only the four text columns: Authors and Year are absent. -/
def dfNoAuthors : DFrame :=
  [("Title", [PyVal.str ("gold study")]), ("Abstract", [PyVal.str ("")]),
   ("Keywords", [PyVal.str ("")]), ("Index Keywords", [PyVal.str ("")])]

/-- Witness for C9 (amended): the frame missing the Authors and Year
columns still pre-processes successfully. -/
theorem preprocess_ok_of_text_columns_present_witness :
    (preprocess? (fun s => s) (fun _ => 0) dfNoAuthors 1).isSome = true :=
  preprocess_ok_of_text_columns_present (fun s => s) (fun _ => 0) dfNoAuthors 1
    (by decide) (by decide)

/-! ## Grouping by detected set (claim C6) -/

theorem bool_eq_of_iff {a b : Bool} (h : a = true ↔ b = true) : a = b := by
  cases a <;> cases b <;> simp_all

theorem npMap_entry_unique :
    ∀ (l : List (String × List String)), (l.map (fun p => p.1)).Nodup →
      ∀ p q, p ∈ l → q ∈ l → p.1 = q.1 → p = q := by
  intro l
  induction l with
  | nil => intro _ p q hp; simp at hp
  | cons x xs ih =>
      intro hnd p q hp hq hpq
      rw [List.map_cons, List.nodup_cons] at hnd
      rcases List.mem_cons.mp hp with hpx | hp
      · rcases List.mem_cons.mp hq with hqx | hq
        · rw [hpx, hqx]
        · exfalso
          apply hnd.1
          rw [← hpx, hpq]
          exact List.mem_map_of_mem (fun p => p.1) hq
      · rcases List.mem_cons.mp hq with hqx | hq
        · exfalso
          apply hnd.1
          rw [← hqx, ← hpq]
          exact List.mem_map_of_mem (fun p => p.1) hp
        · exact ih hnd.2 p q hp hq hpq

theorem npMap_keys_nodup : (NANOPARTICLE_MAP.map (fun p => p.1)).Nodup := by decide

theorem mem_detectNames_iff (p : String × List String) (hp : p ∈ NANOPARTICLE_MAP)
    (text : String) :
    p.1 ∈ detectNames text ↔ (p.2.any (fun v => wholeWordSearch v text)) = true := by
  constructor
  · intro hmem
    obtain ⟨q, hq, hqe⟩ := List.mem_map.mp hmem
    obtain ⟨hqm, hqf⟩ := List.mem_filter.mp hq
    have hqp : q = p := npMap_entry_unique NANOPARTICLE_MAP npMap_keys_nodup q p hqm hp hqe
    rw [hqp] at hqf
    exact hqf
  · intro hmatch
    exact List.mem_map.mpr ⟨p, List.mem_filter.mpr ⟨hp, hmatch⟩, rfl⟩

theorem detectNames_eq_of_set_eq (t1 t2 : String)
    (hset : ∀ n, n ∈ detectNames t1 ↔ n ∈ detectNames t2) :
    detectNames t1 = detectNames t2 := by
  unfold detectNames
  refine congrArg (List.map (fun p : String × List String => p.1)) ?_
  refine List.filter_congr ?_
  intro p hp
  refine bool_eq_of_iff ?_
  rw [← mem_detectNames_iff p hp t1, ← mem_detectNames_iff p hp t2]
  exact hset p.1

theorem find?_map_keyfix (gs : List Group) (ck : List String) (f : Group → Group)
    (hf : ∀ p, (f p).1 = p.1) :
    (gs.map f).find? (fun p => p.1 == ck) = (gs.find? (fun p => p.1 == ck)).map f := by
  induction gs with
  | nil => rfl
  | cons g gs ih =>
      rw [List.map_cons, List.find?_cons, List.find?_cons]
      by_cases hg : (g.1 == ck) = true
      · have hfg : ((f g).1 == ck) = true := by rw [hf g]; exact hg
        rw [hg, hfg]
        rfl
      · have hg2 : (g.1 == ck) = false := by
          cases hgg : (g.1 == ck) with
          | false => rfl
          | true => exact absurd hgg hg
        have hfg : ((f g).1 == ck) = false := by rw [hf g]; exact hg2
        rw [hg2, hfg, ih]

theorem find?_append_eq (p : Group → Bool) :
    ∀ (l1 l2 : List Group), (l1 ++ l2).find? p =
      (match l1.find? p with
       | some g => some g
       | Option.none => l2.find? p) := by
  intro l1 l2
  induction l1 with
  | nil => rfl
  | cons a l ih =>
      rw [List.cons_append, List.find?_cons, List.find?_cons]
      by_cases ha : p a = true
      · rw [ha]
      · have ha2 : p a = false := by
          cases hq : p a with
          | false => rfl
          | true => exact absurd hq ha
        rw [ha2, ih]

theorem lookupG_dictAppend_self (gs : List Group) (ck : List String) (v : String) :
    lookupG (dictAppend gs ck v) ck = lookupG gs ck ++ [v] := by
  unfold dictAppend
  by_cases hmem : (gs.any (fun p => p.1 == ck)) = true
  · rw [if_pos hmem]
    unfold lookupG
    rw [find?_map_keyfix gs ck _
      (fun p => by by_cases hp : (p.1 == ck) = true <;> simp [hp])]
    have hsome : (gs.find? (fun p => p.1 == ck)).isSome := by
      rw [List.find?_isSome]
      obtain ⟨g, hg, hgk⟩ := List.any_eq_true.mp hmem
      exact ⟨g, hg, hgk⟩
    obtain ⟨g0, hg0⟩ := Option.isSome_iff_exists.mp hsome
    have hg0k := List.find?_some hg0
    have hg0e : g0.1 = ck := by simpa using hg0k
    rw [hg0]
    simp [hg0e]
  · rw [if_neg hmem]
    unfold lookupG
    have hnone : gs.find? (fun p => p.1 == ck) = Option.none := by
      rw [List.find?_eq_none]
      intro x hx hxk
      exact hmem (List.any_eq_true.mpr ⟨x, hx, hxk⟩)
    rw [find?_append_eq, hnone]
    simp

theorem lookupG_dictAppend_ne (gs : List Group) (ck ck' : List String) (v : String)
    (hne : ¬ ck' = ck) :
    lookupG (dictAppend gs ck v) ck' = lookupG gs ck' := by
  unfold dictAppend
  by_cases hmem : (gs.any (fun p => p.1 == ck)) = true
  · rw [if_pos hmem]
    unfold lookupG
    rw [find?_map_keyfix gs ck' _
      (fun p => by by_cases hp : (p.1 == ck) = true <;> simp [hp])]
    cases hf : gs.find? (fun p => p.1 == ck') with
    | none => rfl
    | some g0 =>
        have hg0 : g0.1 = ck' := by simpa using List.find?_some hf
        simp [hg0, hne]
  · rw [if_neg hmem]
    unfold lookupG
    rw [find?_append_eq]
    cases hf : gs.find? (fun p => p.1 == ck') with
    | none =>
        have hckck : ((ck, [v]).1 == ck') = false := by
          refine beq_eq_false_iff_ne.mpr ?_
          exact fun e => hne e.symm
        rw [List.find?_cons]
        rw [show (((ck, [v]) : Group).1 == ck') = false from hckck]
        rfl
    | some g0 => rfl

theorem lookupG_foldl_groupStep :
    ∀ (rks : List (Row × String)) (gs0 : List Group) (ck : List String), ¬ ck = [] →
      lookupG (rks.foldl groupStep gs0) ck
        = lookupG gs0 ck
          ++ (rks.filter (fun p => comboOf p.1 == ck)).map (fun p => p.2) := by
  intro rks
  induction rks with
  | nil => intro gs0 ck hck; simp
  | cons rk rks ih =>
      intro gs0 ck hck
      rw [List.foldl_cons, ih (groupStep gs0 rk) ck hck]
      unfold groupStep
      by_cases hempty : (comboOf rk.1).isEmpty = true
      · rw [if_pos hempty]
        have hcf : (comboOf rk.1 == ck) = false := by
          refine beq_eq_false_iff_ne.mpr ?_
          intro e
          apply hck
          rw [← e]
          exact List.isEmpty_iff.mp hempty
        simp [List.filter_cons, hcf]
      · rw [if_neg hempty]
        by_cases hk : (comboOf rk.1 == ck) = true
        · have e : comboOf rk.1 = ck := by simpa using hk
          rw [← e, lookupG_dictAppend_self]
          simp [List.filter_cons, hk]
        · have hne : ¬ ck = comboOf rk.1 :=
            fun e => hk (by rw [e]; exact beq_self_eq_true _)
          rw [lookupG_dictAppend_ne gs0 (comboOf rk.1) ck rk.2 hne]
          have hkf : (comboOf rk.1 == ck) = false := by
            cases hkk : (comboOf rk.1 == ck) with
            | false => rfl
            | true => exact absurd hkk hk
          simp [List.filter_cons, hkf]

theorem insertStr_length (x : String) (l : List String) :
    (insertStr x l).length = l.length + 1 := by
  induction l with
  | nil => rfl
  | cons y ys ih =>
      unfold insertStr
      by_cases h : strLe x y = true
      · rw [if_pos h]; rfl
      · rw [if_neg h]; simp [ih]

theorem sortStrings_length (l : List String) : (sortStrings l).length = l.length := by
  induction l with
  | nil => rfl
  | cons x xs ih =>
      show (insertStr x (sortStrings xs)).length = xs.length + 1
      rw [insertStr_length, ih]

/-- C6: two rows whose detected canonical-name sets are equal as sets
(whatever order the names were discovered in) receive the identical
sorted combination key, and in the grouping pass their bibliography keys
are filed into the same combination group. -/
theorem same_detected_set_same_group (rks : List (Row × String))
    (r1 r2 : Row) (k1 k2 : String)
    (h1 : (r1, k1) ∈ rks) (h2 : (r2, k2) ∈ rks)
    (hne : ¬ detectNames (combinedText r1) = [])
    (hset : ∀ n, n ∈ detectNames (combinedText r1) ↔ n ∈ detectNames (combinedText r2)) :
    comboOf r1 = comboOf r2
    ∧ ∃ g, g ∈ buildGroups rks ∧ k1 ∈ g.2 ∧ k2 ∈ g.2 := by
  have hdet : detectNames (combinedText r1) = detectNames (combinedText r2) :=
    detectNames_eq_of_set_eq _ _ hset
  have hcombo : comboOf r1 = comboOf r2 := by
    unfold comboOf; rw [hdet]
  refine ⟨hcombo, ?_⟩
  have hckne : ¬ comboOf r1 = [] := by
    intro e
    apply hne
    have hl := sortStrings_length (detectNames (combinedText r1))
    rw [show sortStrings (detectNames (combinedText r1)) = comboOf r1 from rfl, e] at hl
    exact List.length_eq_zero.mp hl.symm
  have hinv := lookupG_foldl_groupStep rks [] (comboOf r1) hckne
  have hlook0 : lookupG [] (comboOf r1) = [] := rfl
  have hk1 : k1 ∈ lookupG (buildGroups rks) (comboOf r1) := by
    show k1 ∈ lookupG (rks.foldl groupStep []) (comboOf r1)
    rw [hinv, hlook0, List.nil_append]
    refine List.mem_map.mpr ⟨(r1, k1), ?_, rfl⟩
    exact List.mem_filter.mpr ⟨h1, beq_self_eq_true _⟩
  have hk2 : k2 ∈ lookupG (buildGroups rks) (comboOf r1) := by
    show k2 ∈ lookupG (rks.foldl groupStep []) (comboOf r1)
    rw [hinv, hlook0, List.nil_append]
    refine List.mem_map.mpr ⟨(r2, k2), ?_, rfl⟩
    refine List.mem_filter.mpr ⟨h2, ?_⟩
    show (comboOf r2 == comboOf r1) = true
    rw [← hcombo]
    exact beq_self_eq_true _
  unfold lookupG at hk1 hk2
  cases hf : (buildGroups rks).find? (fun p => p.1 == comboOf r1) with
  | none =>
      rw [hf] at hk1
      simp at hk1
  | some g =>
      rw [hf] at hk1 hk2
      simp at hk1 hk2
      exact ⟨g, List.mem_of_find?_eq_some hf, hk1, hk2⟩

/-- Article text mentioning silver and gold by name. -/
def silverGoldRowA : Row :=
  mkRow (PyVal.str ("A")) PyVal.nan (PyVal.str ("silver and gold study"))

/-- Article text mentioning the same materials as Au and Ag. -/
def silverGoldRowB : Row :=
  mkRow (PyVal.str ("B")) PyVal.nan (PyVal.str ("Au with Ag"))

/-- Witness for C6: the silver/gold article and the Ag/Au article land in
the same combination group. -/
theorem same_detected_set_same_group_witness :
    ∃ g, g ∈ buildGroups [(silverGoldRowA, "k1"), (silverGoldRowB, "k2")]
      ∧ "k1" ∈ g.2 ∧ "k2" ∈ g.2 := by
  have e1 : detectNames (combinedText silverGoldRowA) = ["Silver", "Gold"] := by decide
  have e2 : detectNames (combinedText silverGoldRowB) = ["Silver", "Gold"] := by decide
  refine (same_detected_set_same_group
      [(silverGoldRowA, "k1"), (silverGoldRowB, "k2")]
      silverGoldRowA silverGoldRowB ("k1") ("k2")
      (by decide) (by decide) ?_ ?_).2
  · rw [e1]; simp
  · intro n; rw [e1, e2]

end NP
